import Mathlib

/-!
Shallow embedding of the `parse-trait` crate: the `Parse` and `BuildParser`
contracts from `src/lib.rs`, and the reference radix-integer parser
(`ParseInt` over `u32`) from `tests/int.rs`.

Rust's `&mut self` methods are modelled by explicit state passing: a method
returns the updated state together with its result.  `Result` is `Except`,
`core::task::Poll` is the `Poll` inductive below, `u32` arithmetic is `Nat`
with an explicit `2 ^ 32` bound in the checked operations, and `&str` input
is `List Char`.
-/

namespace ParseTrait

/-- Model of `core::task::Poll`. -/
inductive Poll (α : Type) where
  | pending
  | ready (value : α)
deriving DecidableEq

/-- Model of the `Parse<Input>` trait from `src/lib.rs`: the three required
items (`extraneous`, `insufficient`, `try_parse`) as a dictionary over a
state type `S`.  `try_parse` mutates `self`, so it returns the new state. -/
structure Parse (S Input Output Error : Type) where
  extraneous : S → Input → Error
  insufficient : S → Error
  try_parse : S → Input → S × Except Error (Poll (Output × Input))

variable {S Input Output Error : Type}

/-- Model of the provided method `Parse::parse` (src/lib.rs lines 102-107). -/
def Parse.parse (P : Parse S Input Output Error) (s : S) (input : Input) :
    S × Except Error (Output × Input) :=
  match P.try_parse s input with
  | (s2, Except.error e) => (s2, Except.error e)
  | (s2, Except.ok Poll.pending) => (s2, Except.error (P.insufficient s2))
  | (s2, Except.ok (Poll.ready value)) => (s2, Except.ok value)

/-- Model of the provided method `Parse::try_parse_only` (src/lib.rs lines 113-124). -/
def Parse.try_parse_only [Inhabited Input] [DecidableEq Input]
    (P : Parse S Input Output Error) (s : S) (input : Input) :
    S × Except Error (Poll Output) :=
  match P.try_parse s input with
  | (s2, Except.error e) => (s2, Except.error e)
  | (s2, Except.ok Poll.pending) => (s2, Except.ok Poll.pending)
  | (s2, Except.ok (Poll.ready (output, inp))) =>
    if inp = (default : Input) then (s2, Except.ok (Poll.ready output))
    else (s2, Except.error (P.extraneous s2 inp))

/-- Model of the provided method `Parse::parse_only` (src/lib.rs lines 127-138). -/
def Parse.parse_only [Inhabited Input] [DecidableEq Input]
    (P : Parse S Input Output Error) (s : S) (input : Input) :
    S × Except Error Output :=
  match P.try_parse s input with
  | (s2, Except.error e) => (s2, Except.error e)
  | (s2, Except.ok Poll.pending) => (s2, Except.error (P.insufficient s2))
  | (s2, Except.ok (Poll.ready (output, inp))) =>
    if inp = (default : Input) then (s2, Except.ok output)
    else (s2, Except.error (P.extraneous s2 inp))

/-- Model of the `BuildParser<Input>` trait from `src/lib.rs`: a builder type
`B` together with the `Parse` dictionary of its associated `Parser` state. -/
structure BuildParser (B S Input Output Error : Type) where
  parserImpl : Parse S Input Output Error
  buildParser : B → S

/-- Model of the provided method `BuildParser::parse_one` (src/lib.rs lines 16-25):
the freshly built parser is a temporary, so only the `Result` is returned. -/
def BuildParser.parse_one {B : Type} (BP : BuildParser B S Input Output Error)
    (b : B) (input : Input) : Except Error (Output × Input) :=
  (BP.parserImpl.parse (BP.buildParser b) input).2

/-- Model of the provided method `BuildParser::parse_one_only` (src/lib.rs lines 28-34). -/
def BuildParser.parse_one_only {B : Type} [Inhabited Input] [DecidableEq Input]
    (BP : BuildParser B S Input Output Error) (b : B) (input : Input) :
    Except Error Output :=
  (BP.parserImpl.parse_only (BP.buildParser b) input).2

/-! ## Reference radix-integer parser (`tests/int.rs`), with `T = u32`

`u32` values are `Nat`s below `2 ^ 32`; `checked_mul` / `checked_add` return
`none` exactly when the mathematical result does not fit. -/

/-- Model of `u32::checked_mul`. -/
def checked_mul (a b : Nat) : Option Nat :=
  if a * b < 2 ^ 32 then some (a * b) else none

/-- Model of `u32::checked_add`. -/
def checked_add (a b : Nat) : Option Nat :=
  if a + b < 2 ^ 32 then some (a + b) else none

/-- Model of `char::to_digit(radix)`: ASCII `0-9`, `a-z`, `A-Z` map to
`0-35`, accepted when the value is below the radix. -/
def to_digit (c : Char) (radix : Nat) : Option Nat :=
  let n := c.toNat
  let d : Option Nat :=
    if 48 ≤ n ∧ n ≤ 57 then some (n - 48)
    else if 97 ≤ n ∧ n ≤ 122 then some (n - 97 + 10)
    else if 65 ≤ n ∧ n ≤ 90 then some (n - 65 + 10)
    else none
  match d with
  | some v => if v < radix then some v else none
  | none => none

/-- Model of `<u32 as FromRadix>::is_digit_radix` (`c.is_digit(radix)`). -/
def is_digit_radix (c : Char) (radix : Nat) : Bool :=
  (to_digit c radix).isSome

/-- Model of `<u32 as FromRadix>::from_digit_radix` (`c.to_digit(radix).unwrap()`):
only ever applied to characters for which `is_digit_radix` holds, where the
`unwrap` cannot panic. -/
def from_digit_radix (c : Char) (radix : Nat) : Nat :=
  (to_digit c radix).getD 0

/-- Model of the `ParseInt<u32>` struct from `tests/int.rs`. -/
structure ParseInt where
  val : Nat
  radix : Nat
deriving DecidableEq

/-- Model of the `ParseIntError` enum from `tests/int.rs`. -/
inductive ParseIntError where
  | InvalidChar (c : Char)
  | Empty
  | Overflow
deriving DecidableEq

/-- Model of the `for c in input.chars()` accumulation loop inside
`ParseInt::try_parse` (tests/int.rs lines 89-99): multiply the running value
by the radix, then add the digit, both checked; on the first failing step the
loop stops with `Overflow`, leaving `val` as it was at that point. -/
def accumulate (radix : Nat) (val : Nat) : List Char → Nat × Option ParseIntError
  | [] => (val, none)
  | c :: cs =>
    match checked_mul val radix with
    | none => (val, some ParseIntError.Overflow)
    | some v =>
      match checked_add v (from_digit_radix c radix) with
      | none => (v, some ParseIntError.Overflow)
      | some v2 => accumulate radix v2 cs

/-- Model of `<ParseInt<u32> as Parse<&str>>::extraneous` (tests/int.rs lines 54-65). -/
def ParseInt.extraneous (s : ParseInt) (input : List Char) : ParseIntError :=
  match input with
  | [] => ParseIntError.Empty
  | c :: _ =>
    if is_digit_radix c s.radix then ParseIntError.Overflow
    else ParseIntError.InvalidChar c

/-- Model of `<ParseInt<u32> as Parse<&str>>::insufficient` (tests/int.rs lines 67-69). -/
def ParseInt.insufficient (_s : ParseInt) : ParseIntError :=
  ParseIntError.Empty

/-- Model of `<ParseInt<u32> as Parse<&str>>::try_parse` (tests/int.rs lines 71-102).
`input.find(|c| !is_digit_radix(c, radix))` is `List.findIdx?` of the negated
digit test, `split_at(pos)` is `take` / `drop`, and the final
`mem::take(&mut self.val)` returns the accumulated value while resetting
`val` to `u32::default()` (that is, `0`). -/
def ParseInt.try_parse (s : ParseInt) (input : List Char) :
    ParseInt × Except ParseIntError (Poll (Nat × List Char)) :=
  match List.findIdx? (fun c => !(is_digit_radix c s.radix)) input with
  | some pos =>
    if input.take pos = [] then
      (s, Except.error (ParseIntError.InvalidChar ((input.drop pos).headD (Char.ofNat 32))))
    else
      match accumulate s.radix s.val (input.take pos) with
      | (v, some e) => ({ s with val := v }, Except.error e)
      | (v, none) => ({ s with val := 0 }, Except.ok (Poll.ready (v, input.drop pos)))
  | none =>
    if input = [] then (s, Except.ok Poll.pending)
    else
      match accumulate s.radix s.val input with
      | (v, some e) => ({ s with val := v }, Except.error e)
      | (v, none) => ({ s with val := 0 }, Except.ok (Poll.ready (v, [])))

/-- The `Parse<&str>` dictionary of `ParseInt<u32>`. -/
def parseIntImpl : Parse ParseInt (List Char) Nat ParseIntError where
  extraneous := ParseInt.extraneous
  insufficient := ParseInt.insufficient
  try_parse := ParseInt.try_parse

/-- Model of `ParseRadix<u32>` with its `BuildParser<&str>` impl
(tests/int.rs lines 106-116): the builder value is the stored radix, and
`build_parser` clones it into a `ParseInt` with `val = u32::default()`. -/
def parseRadix : BuildParser Nat ParseInt (List Char) Nat ParseIntError where
  parserImpl := parseIntImpl
  buildParser := fun radix => { val := 0, radix := radix }

instance {ε α : Type} [DecidableEq ε] [DecidableEq α] : DecidableEq (Except ε α) := fun x y =>
  match x, y with
  | Except.error a, Except.error b =>
    if h : a = b then isTrue (by rw [h])
    else isFalse (by intro hc; injection hc; contradiction)
  | Except.error _, Except.ok _ => isFalse (fun hc => Except.noConfusion hc)
  | Except.ok _, Except.error _ => isFalse (fun hc => Except.noConfusion hc)
  | Except.ok a, Except.ok b =>
    if h : a = b then isTrue (by rw [h])
    else isFalse (by intro hc; injection hc; contradiction)

/-! ## Helper lemmas about the digit split -/

/-- Splitting a list at the index of the first element failing `p` (Rust's
`find` + `split_at`) is the same as `takeWhile p` / `dropWhile p`. -/
theorem span_eq_of_findIdx {α : Type} (p : α → Bool) (l : List α) :
    (List.findIdx? (fun c => !(p c)) l = none →
      l.takeWhile p = l ∧ l.dropWhile p = []) ∧
    (∀ pos, List.findIdx? (fun c => !(p c)) l = some pos →
      l.takeWhile p = l.take pos ∧ l.dropWhile p = l.drop pos) := by
  induction l with
  | nil =>
    refine ⟨fun _ => ⟨rfl, rfl⟩, fun pos h => ?_⟩
    simp at h
  | cons c rest ih =>
    by_cases hc : p c
    · refine ⟨fun h => ?_, fun pos h => ?_⟩
      · simp only [List.findIdx?_cons, hc, Bool.not_true, if_neg, Bool.false_eq_true,
          not_false_eq_true, List.findIdx?_start_succ, Option.map_eq_none'] at h
        obtain ⟨ht, hd⟩ := ih.1 h
        simp [List.takeWhile_cons, List.dropWhile_cons, hc, ht, hd]
      · simp only [List.findIdx?_cons, hc, Bool.not_true, if_neg, Bool.false_eq_true,
          not_false_eq_true, List.findIdx?_start_succ, Option.map_eq_some'] at h
        obtain ⟨k, hk, hpos⟩ := h
        obtain ⟨ht, hd⟩ := ih.2 k hk
        subst hpos
        simp [List.takeWhile_cons, List.dropWhile_cons, hc, ht, hd]
    · refine ⟨fun h => ?_, fun pos h => ?_⟩
      · simp [List.findIdx?_cons, hc] at h
      · simp only [List.findIdx?_cons, hc, Bool.not_false, if_pos, Option.some.injEq] at h
        subst h
        simp [List.takeWhile_cons, List.dropWhile_cons, hc]

/-- Full characterization of `ParseInt::try_parse` in terms of the digit
prefix: empty input is pending; a leading non-digit is an immediate
invalid-character error; otherwise the digit prefix is accumulated, giving
either `Overflow` or a ready result whose leftover starts at the first
non-digit. -/
theorem try_parse_span (s : ParseInt) (input : List Char) :
    ParseInt.try_parse s input =
      if input = [] then (s, Except.ok Poll.pending)
      else if input.takeWhile (fun c => is_digit_radix c s.radix) = [] then
        (s, Except.error (ParseIntError.InvalidChar
          ((input.dropWhile (fun c => is_digit_radix c s.radix)).headD (Char.ofNat 32))))
      else
        match accumulate s.radix s.val (input.takeWhile (fun c => is_digit_radix c s.radix)) with
        | (v, some e) => ({ s with val := v }, Except.error e)
        | (v, none) =>
          ({ s with val := 0 },
           Except.ok (Poll.ready (v, input.dropWhile (fun c => is_digit_radix c s.radix)))) := by
  obtain ⟨hnone, hsome⟩ := span_eq_of_findIdx (fun c => is_digit_radix c s.radix) input
  cases h : List.findIdx? (fun c => !(is_digit_radix c s.radix)) input with
  | none =>
    obtain ⟨ht, hd⟩ := hnone h
    by_cases hin : input = []
    · subst hin; simp [ParseInt.try_parse]
    · simp only [ParseInt.try_parse, h, ht, hd, if_neg hin]
  | some pos =>
    obtain ⟨ht, hd⟩ := hsome pos h
    have hin : input ≠ [] := by
      intro hnil
      subst hnil
      simp at h
    simp only [ParseInt.try_parse, h, ht, hd, if_neg hin]

/-! ## Theorems about the generic contract -/

/-- C1: for every parser implementing the `Parse` contract and every input,
the derived `parse` equals `try_parse` with a pending result mapped to
`Err(insufficient())` (invoked on the post-step state), a ready result passed
through unchanged (same output, same leftover), and an error passed through
unchanged. -/
theorem parse_derivation_consistency {S Input Output Error : Type}
    (P : Parse S Input Output Error) (s : S) (input : Input) :
    P.parse s input =
      ((P.try_parse s input).1,
       match (P.try_parse s input).2 with
       | Except.error e => Except.error e
       | Except.ok Poll.pending => Except.error (P.insufficient (P.try_parse s input).1)
       | Except.ok (Poll.ready value) => Except.ok value) := by
  rcases h : P.try_parse s input with ⟨s2, r⟩
  cases r with
  | error e => simp [Parse.parse, h]
  | ok p =>
    cases p with
    | pending => simp [Parse.parse, h]
    | ready value => simp [Parse.parse, h]

/-- C3: for every parser implementing the `Parse` contract and every input,
the derived `try_parse_only` passes a pending result of `try_parse` through
unchanged; on ready with leftover equal to `Input::default()` it succeeds with
just the output; on ready with leftover different from `Input::default()` it
returns `Err(extraneous(leftover))`; an error passes through unchanged. -/
theorem try_parse_only_derivation {S Input Output Error : Type}
    [Inhabited Input] [DecidableEq Input]
    (P : Parse S Input Output Error) (s : S) (input : Input) :
    P.try_parse_only s input =
      ((P.try_parse s input).1,
       match (P.try_parse s input).2 with
       | Except.error e => Except.error e
       | Except.ok Poll.pending => Except.ok Poll.pending
       | Except.ok (Poll.ready (output, leftover)) =>
         if leftover = (default : Input) then Except.ok (Poll.ready output)
         else Except.error (P.extraneous (P.try_parse s input).1 leftover)) := by
  rcases h : P.try_parse s input with ⟨s2, r⟩
  cases r with
  | error e => simp [Parse.try_parse_only, h]
  | ok p =>
    cases p with
    | pending => simp [Parse.try_parse_only, h]
    | ready value =>
      obtain ⟨output, leftover⟩ := value
      by_cases hd : leftover = (default : Input) <;>
        simp [Parse.try_parse_only, h, hd]

/-- C2: for every parser implementing the `Parse` contract and every input,
`parse_only` equals the composition of the two stricter policies (pending →
`Err(insufficient())`; ready with leftover ≠ `Input::default()` →
`Err(extraneous(leftover))`; ready with default leftover → `Ok(output)`), and
equivalently equals `parse` followed by, on success with non-default
leftover, substitution with `Err(extraneous(leftover))`. -/
theorem parse_only_strictness_composition {S Input Output Error : Type}
    [Inhabited Input] [DecidableEq Input]
    (P : Parse S Input Output Error) (s : S) (input : Input) :
    (P.parse_only s input =
      ((P.try_parse s input).1,
       match (P.try_parse s input).2 with
       | Except.error e => Except.error e
       | Except.ok Poll.pending => Except.error (P.insufficient (P.try_parse s input).1)
       | Except.ok (Poll.ready (output, leftover)) =>
         if leftover = (default : Input) then Except.ok output
         else Except.error (P.extraneous (P.try_parse s input).1 leftover))) ∧
    (P.parse_only s input =
      ((P.parse s input).1,
       match (P.parse s input).2 with
       | Except.error e => Except.error e
       | Except.ok (output, leftover) =>
         if leftover = (default : Input) then Except.ok output
         else Except.error (P.extraneous (P.parse s input).1 leftover))) := by
  rcases h : P.try_parse s input with ⟨s2, r⟩
  cases r with
  | error e => simp [Parse.parse_only, Parse.parse, h]
  | ok p =>
    cases p with
    | pending => simp [Parse.parse_only, Parse.parse, h]
    | ready value =>
      obtain ⟨output, leftover⟩ := value
      by_cases hd : leftover = (default : Input) <;>
        simp [Parse.parse_only, Parse.parse, h, hd]

/-- C8: for every builder implementing `BuildParser` and every input,
`parse_one(input)` equals `build_parser().parse(input)` and
`parse_one_only(input)` equals `build_parser().parse_only(input)`; in
particular each fails exactly when the corresponding operation on a freshly
built parser fails, with the same error. -/
theorem build_parser_one_shot {B S Input Output Error : Type}
    [Inhabited Input] [DecidableEq Input]
    (BP : BuildParser B S Input Output Error) (b : B) (input : Input) :
    (BP.parse_one b input = (BP.parserImpl.parse (BP.buildParser b) input).2) ∧
    (BP.parse_one_only b input = (BP.parserImpl.parse_only (BP.buildParser b) input).2) ∧
    (∀ e, BP.parse_one b input = Except.error e ↔
      (BP.parserImpl.parse (BP.buildParser b) input).2 = Except.error e) ∧
    (∀ e, BP.parse_one_only b input = Except.error e ↔
      (BP.parserImpl.parse_only (BP.buildParser b) input).2 = Except.error e) :=
  ⟨rfl, rfl, fun _ => Iff.rfl, fun _ => Iff.rfl⟩

/-! ## Theorems about the reference radix-integer parser -/

/-- C5 (amended): `ParseInt::try_parse` on the empty chunk is pending; on a
chunk whose first character is a non-digit (zero digits before the first
non-digit) it immediately errors with that character; otherwise it splits the
chunk at the first non-digit (the whole chunk when all characters are
digits), accumulates the digit prefix, and — provided no accumulation step
overflows — returns ready with the remainder (empty exactly when the chunk
was all digits) as leftover; an overflowing step yields `Err(Overflow)`
instead. -/
theorem try_parse_cutoff_characterization (s : ParseInt) (input : List Char) :
    ParseInt.try_parse s input =
      if input = [] then (s, Except.ok Poll.pending)
      else if input.takeWhile (fun c => is_digit_radix c s.radix) = [] then
        (s, Except.error (ParseIntError.InvalidChar
          ((input.dropWhile (fun c => is_digit_radix c s.radix)).headD (Char.ofNat 32))))
      else
        match accumulate s.radix s.val (input.takeWhile (fun c => is_digit_radix c s.radix)) with
        | (v, some e) => ({ s with val := v }, Except.error e)
        | (v, none) =>
          ({ s with val := 0 },
           Except.ok (Poll.ready (v, input.dropWhile (fun c => is_digit_radix c s.radix)))) :=
  try_parse_span s input

/-- C5 (counterexample): a non-empty all-digit chunk is not always ready.
Nine `'f'` characters at radix 16 contain no non-digit, yet `try_parse`
returns `Err(Overflow)` (kernel evaluation of the code at that input), not a
ready result with empty leftover as the claim states. -/
theorem all_digit_chunk_not_always_ready :
    ParseInt.try_parse ⟨0, 16⟩ (List.replicate 9 'f') =
      ({ val := 4294967295, radix := 16 }, Except.error ParseIntError.Overflow) ∧
    ParseInt.try_parse ⟨0, 16⟩ (List.replicate 9 'f') ≠
      ({ val := 0, radix := 16 },
       Except.ok (Poll.ready (68719476735 % 2 ^ 32, []))) := by
  constructor
  · rfl
  · decide

/-- C4 (amended): feeding `"de"` then `"ad"` to the same fresh radix-16
parser instance via successive `try_parse` calls returns ready on each call
(end of chunk is this parser's completion signal), with the per-chunk values
`0xde` then `0xad` and empty leftover; the accumulated value is reset between
calls, so no cross-chunk total is ever produced. -/
theorem streaming_chunks_each_ready :
    ParseInt.try_parse (parseRadix.buildParser 16) "de".toList =
      (⟨0, 16⟩, Except.ok (Poll.ready (0xde, []))) ∧
    ParseInt.try_parse
        (ParseInt.try_parse (parseRadix.buildParser 16) "de".toList).1 "ad".toList =
      (⟨0, 16⟩, Except.ok (Poll.ready (0xad, []))) :=
  ⟨rfl, rfl⟩

/-- C4 (counterexample): the first `try_parse` call on `"de"` with a fresh
radix-16 parser does not return pending — it returns ready with `0xde` and
empty leftover, refuting the claim that both calls return pending until a
terminating condition is met. -/
theorem streaming_first_chunk_not_pending :
    ParseInt.try_parse (parseRadix.buildParser 16) "de".toList =
      (⟨0, 16⟩, Except.ok (Poll.ready (222, []))) ∧
    ParseInt.try_parse (parseRadix.buildParser 16) "de".toList ≠
      (⟨0, 16⟩, Except.ok Poll.pending) := by
  constructor
  · rfl
  · decide

/-- C6: `ParseInt`'s hooks: `extraneous` maps empty leftover to `Empty`, a
leftover whose leading character is a valid digit for the radix to
`Overflow`, and any other leftover to `InvalidChar` of that character;
`insufficient` is always `Empty`; consequently `"ff "` via `parse_one_only`
at radix 16 yields `Err(InvalidChar(' '))`. -/
theorem parseInt_hooks :
    (∀ s : ParseInt, ParseInt.extraneous s [] = ParseIntError.Empty) ∧
    (∀ (s : ParseInt) (c : Char) (rest : List Char),
      ParseInt.extraneous s (c :: rest) =
        if is_digit_radix c s.radix then ParseIntError.Overflow
        else ParseIntError.InvalidChar c) ∧
    (∀ s : ParseInt, ParseInt.insufficient s = ParseIntError.Empty) ∧
    BuildParser.parse_one_only parseRadix 16 "ff ".toList =
      Except.error (ParseIntError.InvalidChar (Char.ofNat 32)) :=
  ⟨fun _ => rfl, fun _ _ _ => rfl, fun _ => rfl, rfl⟩

/-- C7: `ParseInt` accumulates by multiply-by-radix then add-digit, each step
checked; a failing step stops the loop with `Overflow`, and `try_parse`
surfaces that as `Err(Overflow)` whenever accumulating the digit prefix
overflows; in particular nine `'f'` characters (enough to overflow `u32`) via
`parse_one_only` at radix 16 yield `Err(Overflow)`. -/
theorem parseInt_checked_accumulation :
    (∀ (radix val : Nat) (c : Char) (cs : List Char),
      accumulate radix val (c :: cs) =
        match checked_mul val radix with
        | none => (val, some ParseIntError.Overflow)
        | some v =>
          match checked_add v (from_digit_radix c radix) with
          | none => (v, some ParseIntError.Overflow)
          | some v2 => accumulate radix v2 cs) ∧
    (∀ (s : ParseInt) (input : List Char) (v : Nat),
      accumulate s.radix s.val (input.takeWhile (fun c => is_digit_radix c s.radix)) =
        (v, some ParseIntError.Overflow) →
      ParseInt.try_parse s input = ({ s with val := v }, Except.error ParseIntError.Overflow)) ∧
    BuildParser.parse_one_only parseRadix 16 (List.replicate 9 'f') =
      Except.error ParseIntError.Overflow := by
  refine ⟨fun _ _ _ _ => rfl, fun s input v hacc => ?_, rfl⟩
  have hT : input.takeWhile (fun c => is_digit_radix c s.radix) ≠ [] := by
    intro hnil
    rw [hnil] at hacc
    exact Option.noConfusion (congrArg Prod.snd hacc)
  have hin : input ≠ [] := by
    intro hnil
    exact hT (by rw [hnil]; rfl)
  rw [try_parse_span, if_neg hin, if_neg hT, hacc]

/-- C7 (witness): the overflow propagation applied at the concrete state
`⟨0, 16⟩` and input of nine `'f'` characters. -/
theorem parseInt_checked_accumulation_witness :
    ParseInt.try_parse ⟨0, 16⟩ (List.replicate 9 'f') =
      ({ val := 4294967295, radix := 16 }, Except.error ParseIntError.Overflow) :=
  parseInt_checked_accumulation.2.1 ⟨0, 16⟩ (List.replicate 9 'f') 4294967295 rfl

/-- C9: whenever `ParseInt::try_parse` returns ready, the leftover is a
suffix of the input chunk (some prefix `consumed` satisfies
`consumed ++ leftover = input`), and the leftover is the canonical empty
input exactly when the consumed prefix is the whole chunk. -/
theorem try_parse_leftover_invariant (s s2 : ParseInt) (input leftover : List Char) (v : Nat)
    (h : ParseInt.try_parse s input = (s2, Except.ok (Poll.ready (v, leftover)))) :
    ∃ consumed, consumed ++ leftover = input ∧ (leftover = [] ↔ consumed = input) := by
  rw [try_parse_span] at h
  by_cases hin : input = []
  · rw [if_pos hin] at h
    exact absurd (congrArg Prod.snd h) (by simp)
  · rw [if_neg hin] at h
    by_cases hT : input.takeWhile (fun c => is_digit_radix c s.radix) = []
    · rw [if_pos hT] at h
      exact absurd (congrArg Prod.snd h) (by simp)
    · rw [if_neg hT] at h
      rcases hacc : accumulate s.radix s.val
          (input.takeWhile (fun c => is_digit_radix c s.radix)) with ⟨w, e⟩
      cases e with
      | some err =>
        rw [hacc] at h
        exact absurd (congrArg Prod.snd h) (by simp)
      | none =>
        rw [hacc] at h
        have hl : leftover = input.dropWhile (fun c => is_digit_radix c s.radix) := by
          have h2 := congrArg Prod.snd h
          simp only [Except.ok.injEq, Poll.ready.injEq, Prod.mk.injEq] at h2
          exact h2.2.symm
        have key := List.takeWhile_append_dropWhile
          (p := fun c => is_digit_radix c s.radix) (l := input)
        refine ⟨input.takeWhile (fun c => is_digit_radix c s.radix), ?_, ?_, ?_⟩
        · rw [hl]; exact key
        · intro h0
          rw [hl] at h0
          rw [h0, List.append_nil] at key
          exact key
        · intro h1
          rw [h1] at key
          have hlen := congrArg List.length key
          simp only [List.length_append] at hlen
          have : leftover.length = 0 := by
            rw [hl]
            omega
          exact List.eq_nil_of_length_eq_zero this

/-- C9 (witness): the leftover invariant applied at the concrete ready result
of parsing `['f', ' ']` at radix 16, whose leftover is `[' ']`. -/
theorem try_parse_leftover_invariant_witness :
    ∃ consumed, consumed ++ [Char.ofNat 32] = ['f', Char.ofNat 32] ∧
      ([Char.ofNat 32] = ([] : List Char) ↔ consumed = ['f', Char.ofNat 32]) :=
  try_parse_leftover_invariant ⟨0, 16⟩ ⟨0, 16⟩ ['f', Char.ofNat 32] [Char.ofNat 32] 15 rfl

/-- C10: whenever `ParseInt::try_parse` returns ready, `mem::take` has reset
the accumulated value to `u32::default()` (`0`), so the post-call state is
exactly the clean state `ParseRadix::build_parser` produces for the same
radix — the instance is reusable after every completed parse. -/
theorem try_parse_ready_resets (s s2 : ParseInt) (input : List Char) (out : Nat × List Char)
    (h : ParseInt.try_parse s input = (s2, Except.ok (Poll.ready out))) :
    s2.val = 0 ∧ s2 = parseRadix.buildParser s.radix := by
  rw [try_parse_span] at h
  by_cases hin : input = []
  · rw [if_pos hin] at h
    exact absurd (congrArg Prod.snd h) (by simp)
  · rw [if_neg hin] at h
    by_cases hT : input.takeWhile (fun c => is_digit_radix c s.radix) = []
    · rw [if_pos hT] at h
      exact absurd (congrArg Prod.snd h) (by simp)
    · rw [if_neg hT] at h
      rcases hacc : accumulate s.radix s.val
          (input.takeWhile (fun c => is_digit_radix c s.radix)) with ⟨w, e⟩
      cases e with
      | some err =>
        rw [hacc] at h
        exact absurd (congrArg Prod.snd h) (by simp)
      | none =>
        rw [hacc] at h
        have hs2 : s2 = { s with val := 0 } := (congrArg Prod.fst h).symm
        rw [hs2]
        exact ⟨rfl, rfl⟩

/-- C10 (witness): parsing `"de"` from the dirty state `⟨7, 16⟩` ends in the
clean state `build_parser` would produce for radix 16. -/
theorem try_parse_ready_resets_witness :
    (⟨0, 16⟩ : ParseInt).val = 0 ∧ (⟨0, 16⟩ : ParseInt) = parseRadix.buildParser 16 :=
  try_parse_ready_resets ⟨7, 16⟩ ⟨0, 16⟩ "de".toList (2014, []) rfl

end ParseTrait
